import Mathlib

/-!
# Verification of the API Chaos Monkey proxy engine

Shallow embedding of the chaos proxy server (`server/src/chaos-engine.ts`,
`server/src/state.ts`, `server/src/api.ts` and the pipeline-based proxy
middleware) together with proofs about the embedded definitions.

Modelling conventions:
* JavaScript numbers are modelled by `ℚ` where fractional values matter
  (token counts, rates, random draws) and by `ℤ`/`Nat` where the code only
  ever produces integers (timestamps, status codes, millisecond durations).
* `Math.random()` draws and the regex engine are passed in as explicit
  parameters, so every definition stays a pure function of its inputs.
* `undefined` is modelled by `Option`; a JS object field that may be absent
  or `undefined` is an `Option` field.
* JS string operations are modelled over the underlying character list
  (the concrete inputs used here are ASCII, where JS code-unit indexing and
  character indexing agree).
* The handler model is instantaneous: `Date.now() - startTime` elapsed
  times are `0`; the hang path's planned duration is kept as the code
  writes it. Forwarding of upstream response headers is outside the model
  (no claim concerns it).
-/

set_option maxRecDepth 40000

namespace ChaosMonkey

/-! ## Data model (`server/src/types.ts`) -/

/-- `HttpMethod` union type: the five verbs plus the wildcard. -/
inductive HttpMethod where
  | GET | POST | PUT | PATCH | DELETE
  | star
  deriving DecidableEq, Repr

/-- The string form of a method literal, as it appears in the TS union. -/
def HttpMethod.str : HttpMethod → String
  | .GET => "GET"
  | .POST => "POST"
  | .PUT => "PUT"
  | .PATCH => "PATCH"
  | .DELETE => "DELETE"
  | .star => "*"

/-- `ChaosType` union type (pipeline engine version, which also handles
`token-bucket`). -/
inductive ChaosType where
  | latency | error | timeout | corrupt | rateLimit | tokenBucket
  deriving DecidableEq, Repr

/-- A chaos rule (`ChaosRule` interface), with the optional per-variant
parameters used by the pipeline engine. -/
structure ChaosRule where
  id : String
  name : String
  enabled : Bool
  pathPattern : String
  methods : List HttpMethod
  chaosType : ChaosType
  latencyMs : Option ℤ := none
  latencyMinMs : Option ℤ := none
  latencyMaxMs : Option ℤ := none
  errorStatusCode : Option ℤ := none
  errorMessage : Option String := none
  failRate : Option ℚ := none
  timeoutMs : Option ℤ := none
  jitterMs : Option ℤ := none
  rps : Option ℚ := none
  burst : Option ℚ := none
  deriving DecidableEq, Repr

/-! ## Rule matching (`chaos-engine.ts`: `findMatchingRule`,
`matchesMethod`, `matchesPath`) -/

/-- ASCII model of `String.prototype.toUpperCase` (HTTP method tokens are
ASCII). -/
def jsToUpperCase (s : String) : String :=
  String.mk (s.data.map Char.toUpper)

/-- Model of `String.prototype.includes`: substring containment. -/
def jsIncludes (hay needle : String) : Bool :=
  decide (needle.data <:+: hay.data)

/-- A regex engine oracle: `none` means `new RegExp(pattern)` throws,
`some test` means the compiled regex tests a path with `test`. -/
abbrev RegexEngine : Type := String → Option (String → Bool)

/-- `matchesMethod`: wildcard admits everything, otherwise the uppercased
method token is compared against the allowed literals. -/
def matchesMethod (allowed : List HttpMethod) (method : String) : Bool :=
  if allowed.contains HttpMethod.star then true
  else allowed.any (fun m => m.str == jsToUpperCase method)

/-- `matchesPath`: try the pattern as a regex; when compilation fails fall
back to substring containment. -/
def matchesPath (re : RegexEngine) (pattern path : String) : Bool :=
  match re pattern with
  | some test => test path
  | none => jsIncludes path pattern

/-- The loop-body predicate of `findMatchingRule`: enabled, method admitted,
path matched. -/
def ruleMatches (re : RegexEngine) (r : ChaosRule) (path method : String) : Bool :=
  r.enabled && matchesMethod r.methods method && matchesPath re r.pathPattern path

/-- `findMatchingRule`: first enabled rule (in stored order) whose method
filter and path pattern both match. -/
def findMatchingRule (re : RegexEngine) (rules : List ChaosRule)
    (path method : String) : Option ChaosRule :=
  rules.find? (fun r => ruleMatches re r path method)

/-! ## Token bucket registry (`chaos-engine.ts`: `getOrCreateBucket`,
`tryConsumeToken`) -/

/-- Token bucket state per key (`TokenBucket` interface). `lastRefill` is a
Unix timestamp in ms. -/
structure TokenBucket where
  tokens : ℚ
  lastRefill : ℤ
  rps : ℚ
  burst : ℚ
  deriving DecidableEq, Repr

/-- The `tokenBuckets` map, keyed by `"method:ruleId"`. Association list in
insertion order (JS `Map` iteration order). -/
abbrev BucketMap : Type := List (String × TokenBucket)

/-- `Map.get`. -/
def bucketGet (m : BucketMap) (key : String) : Option TokenBucket :=
  (List.find? (fun p => p.1 == key) m).map (fun p => p.2)

/-- `Map.set`: overwrite in place when the key exists, append otherwise. -/
def bucketSet (m : BucketMap) (key : String) (b : TokenBucket) : BucketMap :=
  match m with
  | [] => [(key, b)]
  | (k, v) :: rest =>
      if k == key then (k, b) :: rest else (k, v) :: bucketSet rest key b

/-- `getOrCreateBucket`: create a full bucket on first use, then always
refresh `rps` and `burst` from the arguments. Returns the bucket value the
caller sees and the updated map (the JS code mutates the shared map entry).
`now` stands for the `Date.now()` reading of this call. -/
def getOrCreateBucket (m : BucketMap) (key : String) (rps burst : ℚ)
    (now : ℤ) : TokenBucket × BucketMap :=
  let bucket :=
    match bucketGet m key with
    | some b => b
    | none => { tokens := burst, lastRefill := now, rps := rps, burst := burst }
  let bucket := { bucket with rps := rps, burst := burst }
  (bucket, bucketSet m key bucket)

/-- The result union of `tryConsumeToken`. -/
inductive ConsumeResult where
  | allowed
  | blocked (retryAfter : ℤ)
  deriving DecidableEq, Repr

/-- `tryConsumeToken`: refill from elapsed wall time, clamp to `burst`,
then consume one token or report the wait. Returns the result and the
mutated bucket. -/
def tryConsumeToken (b : TokenBucket) (now : ℤ) : ConsumeResult × TokenBucket :=
  let elapsed : ℚ := (now - b.lastRefill : ℤ) / 1000
  let tokensToAdd := elapsed * b.rps
  let b := { b with tokens := min b.burst (b.tokens + tokensToAdd), lastRefill := now }
  if b.tokens ≥ 1 then
    (ConsumeResult.allowed, { b with tokens := b.tokens - 1 })
  else
    let tokensNeeded := 1 - b.tokens
    let retryAfter := ⌈tokensNeeded / b.rps⌉
    (ConsumeResult.blocked (max 1 retryAfter), b)

/-- The combined consume operation as the pipeline performs it:
`getOrCreateBucket` followed by `tryConsumeToken`, with the mutated bucket
visible in the map afterwards. -/
def consumeToken (m : BucketMap) (key : String) (rps burst : ℚ)
    (now : ℤ) : ConsumeResult × BucketMap :=
  let (bucket, m) := getOrCreateBucket m key rps burst now
  let (res, bucket) := tryConsumeToken bucket now
  (res, bucketSet m key bucket)

/-! ## State store (`server/src/state.ts`) -/

/-- Stored proxy configuration. The JS object's fields can be overwritten
with `undefined` through `updateConfig`, so both fields are `Option`s
(`none` = `undefined`; the initial state is
`{ targetUrl: '', enabled: true }`). -/
structure ProxyConfig where
  targetUrl : Option String
  enabled : Option Bool
  deriving DecidableEq, Repr

/-- A patch for `updateConfig` (`Partial<ProxyConfig>` plus the possibility
of keys explicitly set to `undefined`): the outer `Option` is key presence,
the inner one the value (`none` = `undefined`). -/
structure ConfigPatch where
  targetUrl : Option (Option String) := none
  enabled : Option (Option Bool) := none
  deriving Repr

/-- `updateConfig`: object spread `{ ...proxyConfig, ...updates }` — a key
present in the patch overwrites, even when its value is `undefined`. -/
def updateConfig (c : ProxyConfig) (patch : ConfigPatch) : ProxyConfig :=
  { targetUrl := match patch.targetUrl with
      | some v => v
      | none => c.targetUrl
    enabled := match patch.enabled with
      | some v => v
      | none => c.enabled }

/-- The `PUT /config` handler (`api.ts`): destructures `targetUrl` and
`enabled` out of the request body — absent keys become `undefined` — and
passes an object that always carries **both** keys to `updateConfig`. -/
def putConfigHandler (bodyTargetUrl : Option String) (bodyEnabled : Option Bool)
    (c : ProxyConfig) : ProxyConfig :=
  updateConfig c { targetUrl := some bodyTargetUrl, enabled := some bodyEnabled }

/-- JS truthiness of the stored `targetUrl` (`!config.targetUrl`): both
`undefined` and the empty string are falsy. -/
def targetUrlTruthy (c : ProxyConfig) : Bool :=
  match c.targetUrl with
  | none => false
  | some s => s ≠ ""

/-- JS truthiness of `config.enabled` (`undefined` is falsy). -/
def enabledTruthy (c : ProxyConfig) : Bool :=
  match c.enabled with
  | none => false
  | some b => b

/-- The `statusCode` field of a log entry: a number, or the literal string
tag used by the timeout-chaos path. -/
inductive LogStatus where
  | num (n : ℤ)
  | timeoutTag
  deriving DecidableEq, Repr

/-- A request log entry (`RequestLog` interface; pipeline version also has
`actionsApplied`). -/
structure RequestLog where
  id : String
  timestamp : String
  method : String
  path : String
  headers : List (String × String)
  statusCode : Option LogStatus := none
  responseTime : Option ℤ := none
  chaosApplied : Bool
  chaosType : Option ChaosType := none
  chaosRuleId : Option String := none
  chaosRuleName : Option String := none
  chaosDetails : Option String := none
  actionsApplied : List String := []
  deriving DecidableEq, Repr

/-- `MAX_LOGS` cap on the in-memory log array. -/
def MAX_LOGS : Nat := 1000

/-- `addLog`: push, then `splice(0, length - MAX_LOGS)` when over the cap
(drop the oldest entries at the front). -/
def addLog (logs : List RequestLog) (l : RequestLog) : List RequestLog :=
  let pushed := logs ++ [l]
  if pushed.length > MAX_LOGS then pushed.drop (pushed.length - MAX_LOGS)
  else pushed

/-- JS `array.slice(0, stop)`: a negative `stop` counts from the end,
clamped at zero. -/
def jsSliceToStop (l : List RequestLog) (stop : ℤ) : List RequestLog :=
  if stop < 0 then l.take (max 0 ((l.length : ℤ) + stop)).toNat
  else l.take stop.toNat

/-- `getLogs`: reverse (most recent first) and apply
`limit ? logs.slice(0, limit) : logs` — note that JS truthiness makes a
limit of `0` behave like no limit at all. -/
def getLogs (logs : List RequestLog) (limit : Option ℤ) : List RequestLog :=
  let rev := logs.reverse
  match limit with
  | none => rev
  | some n => if n = 0 then rev else jsSliceToStop rev n

/-- `clearLogs`: `requestLogs.length = 0`. -/
def clearLogs : List RequestLog := []

/-- One operation against the log store, for stating invariants over
arbitrary operation sequences (reads do not change state). -/
inductive LogOp where
  | append (l : RequestLog)
  | read (limit : Option ℤ)
  | clear

/-- The state transition of one log-store operation. -/
def logStep (logs : List RequestLog) (op : LogOp) : List RequestLog :=
  match op with
  | LogOp.append l => addLog logs l
  | LogOp.read _ => logs
  | LogOp.clear => clearLogs

/-- Run a sequence of log-store operations from the empty store. -/
def runLogOps (ops : List LogOp) : List RequestLog :=
  ops.foldl logStep []

/-- What one operation does to the append history since the last clear. -/
def histStep (h : List RequestLog) (op : LogOp) : List RequestLog :=
  match op with
  | LogOp.append l => h ++ [l]
  | LogOp.read _ => h
  | LogOp.clear => []

/-- The full append history since the last `clear` in an operation
sequence (oldest first) — the reference against which FIFO eviction is
stated. -/
def appendHistory (ops : List LogOp) : List RequestLog :=
  ops.foldl histStep []

/-- The suffix of a list keeping at most its `n` last elements. -/
def lastN (n : Nat) (l : List RequestLog) : List RequestLog :=
  l.drop (l.length - n)

/-! ## JSON values (`JSON.parse` / `JSON.stringify` model)

Numbers are restricted to integers — every JSON body handled in this
development is integer-valued, and the corruption routine never constructs
fractional numbers. -/

/-- JSON abstract syntax. Object fields keep insertion order, as JS objects
do for string keys. -/
inductive Json where
  | null
  | bool (b : Bool)
  | num (n : ℤ)
  | str (s : String)
  | arr (elems : List Json)
  | obj (fields : List (String × Json))
  deriving Repr

/-- The `\x7b` character (JSON object opener). -/
def lbrace : Char := Char.ofNat 123

/-- The `\x7d` character (JSON object closer). -/
def rbrace : Char := Char.ofNat 125

/-- `JSON.stringify` escaping for one character inside a string literal. -/
def jsonEscapeChar (c : Char) : List Char :=
  if c = '"' then ['\\', '"']
  else if c = '\\' then ['\\', '\\']
  else if c = '\n' then ['\\', 'n']
  else if c = '\t' then ['\\', 't']
  else if c = '\r' then ['\\', 'r']
  else [c]

/-- `JSON.stringify` of a string. -/
def jsonQuote (s : String) : String :=
  String.mk ('"' :: (s.data.flatMap jsonEscapeChar) ++ ['"'])

mutual

/-- `JSON.stringify` (no indentation: separators `,` and `:` only). -/
def jsonStringify : Json → String
  | Json.null => "null"
  | Json.bool b => if b then "true" else "false"
  | Json.num n => toString n
  | Json.str s => jsonQuote s
  | Json.arr xs => "[" ++ jsonStringifyElems xs ++ "]"
  | Json.obj kvs => "\x7b" ++ jsonStringifyFields kvs ++ "\x7d"

/-- Comma-separated serialisation of array elements. -/
def jsonStringifyElems : List Json → String
  | [] => ""
  | [x] => jsonStringify x
  | x :: y :: xs => jsonStringify x ++ "," ++ jsonStringifyElems (y :: xs)

/-- Comma-separated serialisation of object fields. -/
def jsonStringifyFields : List (String × Json) → String
  | [] => ""
  | [(k, v)] => jsonQuote k ++ ":" ++ jsonStringify v
  | (k, v) :: kv :: kvs =>
      jsonQuote k ++ ":" ++ jsonStringify v ++ "," ++ jsonStringifyFields (kv :: kvs)

end

/-- Whitespace skipping for the JSON reader. -/
def jsonSkipWs (cs : List Char) : List Char :=
  cs.dropWhile (fun c => c == ' ' || c == '\n' || c == '\t' || c == '\r')

/-- Read a JSON string body (the opening quote already consumed),
handling the basic escapes. -/
def jsonParseStrBody (fuel : Nat) (cs : List Char) (acc : List Char) :
    Option (String × List Char) :=
  match fuel, cs with
  | 0, _ => none
  | _, [] => none
  | fuel + 1, c :: rest =>
    if c = '"' then some (String.mk acc.reverse, rest)
    else if c = '\\' then
      match rest with
      | [] => none
      | e :: rest2 =>
        let ec : Option Char :=
          if e = '"' then some '"'
          else if e = '\\' then some '\\'
          else if e = '/' then some '/'
          else if e = 'n' then some '\n'
          else if e = 't' then some '\t'
          else if e = 'r' then some '\r'
          else none
        match ec with
        | some c2 => jsonParseStrBody fuel rest2 (c2 :: acc)
        | none => none
    else jsonParseStrBody fuel rest (c :: acc)

/-- Read a run of decimal digits as a natural number. -/
def jsonParseNat (cs : List Char) : Option (Nat × List Char) :=
  let ds := cs.takeWhile Char.isDigit
  if ds.isEmpty then none
  else some (ds.foldl (fun a c => a * 10 + (c.toNat - 48)) 0, cs.drop ds.length)

mutual

/-- Fuel-bounded JSON value reader. -/
def jsonParseValue (fuel : Nat) (cs : List Char) : Option (Json × List Char) :=
  match fuel with
  | 0 => none
  | fuel + 1 =>
    match jsonSkipWs cs with
    | [] => none
    | c :: rest =>
      if c = '"' then
        (jsonParseStrBody (rest.length + 1) rest []).map
          (fun p => (Json.str p.1, p.2))
      else if c = 't' then
        if rest.take 3 = ['r', 'u', 'e'] then some (Json.bool true, rest.drop 3) else none
      else if c = 'f' then
        if rest.take 4 = ['a', 'l', 's', 'e'] then some (Json.bool false, rest.drop 4) else none
      else if c = 'n' then
        if rest.take 3 = ['u', 'l', 'l'] then some (Json.null, rest.drop 3) else none
      else if c = '-' then
        (jsonParseNat rest).map (fun p => (Json.num (-(p.1 : ℤ)), p.2))
      else if c.isDigit then
        (jsonParseNat (c :: rest)).map (fun p => (Json.num (p.1 : ℤ), p.2))
      else if c = '[' then
        match jsonSkipWs rest with
        | c2 :: rest2 =>
          if c2 = ']' then some (Json.arr [], rest2)
          else jsonParseArrItems fuel rest []
        | [] => none
      else if c = lbrace then
        match jsonSkipWs rest with
        | c2 :: rest2 =>
          if c2 = rbrace then some (Json.obj [], rest2)
          else jsonParseObjItems fuel rest []
        | [] => none
      else none

/-- Array items after `[` (at least one element pending). -/
def jsonParseArrItems (fuel : Nat) (cs : List Char) (acc : List Json) :
    Option (Json × List Char) :=
  match fuel with
  | 0 => none
  | fuel + 1 =>
    match jsonParseValue fuel cs with
    | none => none
    | some (v, cs2) =>
      match jsonSkipWs cs2 with
      | [] => none
      | c :: rest =>
        if c = ',' then jsonParseArrItems fuel rest (acc ++ [v])
        else if c = ']' then some (Json.arr (acc ++ [v]), rest)
        else none

/-- Object fields after `\x7b` (at least one field pending). Duplicate keys
overwrite the earlier value in place, as JS property assignment does. -/
def jsonParseObjItems (fuel : Nat) (cs : List Char) (acc : List (String × Json)) :
    Option (Json × List Char) :=
  match fuel with
  | 0 => none
  | fuel + 1 =>
    match jsonSkipWs cs with
    | [] => none
    | c :: rest =>
      if c = '"' then
        match jsonParseStrBody (rest.length + 1) rest [] with
        | none => none
        | some (k, cs2) =>
          match jsonSkipWs cs2 with
          | [] => none
          | c2 :: rest2 =>
            if c2 = ':' then
              match jsonParseValue fuel rest2 with
              | none => none
              | some (v, cs3) =>
                let acc2 :=
                  if acc.any (fun kv => kv.1 == k) then
                    acc.map (fun kv => if kv.1 == k then (kv.1, v) else kv)
                  else acc ++ [(k, v)]
                match jsonSkipWs cs3 with
                | [] => none
                | c3 :: rest3 =>
                  if c3 = ',' then jsonParseObjItems fuel rest3 acc2
                  else if c3 = rbrace then some (Json.obj acc2, rest3)
                  else none
            else none
      else none

end

/-- `JSON.parse` model: parse one value and require only trailing
whitespace. -/
def jsonParse (s : String) : Option Json :=
  match jsonParseValue (2 * s.length + 8) s.data with
  | some (v, rest) => if jsonSkipWs rest = [] then some v else none
  | none => none

/-! ## JSON corruption (`chaos-engine.ts`: `corruptJsonBody`) -/

/-- Result of `corruptJsonBody` (`CorruptionResult` interface). -/
structure CorruptionResult where
  body : String
  action : String
  deriving DecidableEq, Repr

/-- JS `string.slice(0, n)` for a non-negative bound. -/
def strTake (s : String) (n : Nat) : String := String.mk (s.data.take n)

/-- JS `string.slice(n)` for a non-negative start. -/
def strDrop (s : String) (n : Nat) : String := String.mk (s.data.drop n)

/-- `Math.floor(q)` landing in `Nat` (all the draws floored here are
non-negative). -/
def floorNat (q : ℚ) : Nat := (⌊q⌋).toNat

/-- The `truncate` strategy: cut the body at 30–70 % of its length. -/
def corruptTruncate (body : String) (r : ℚ) : CorruptionResult :=
  let cutPoint := floorNat ((body.length : ℚ) * (3 / 10 + r * (2 / 5)))
  { body := strTake body cutPoint
    action := "corrupt_json:truncated_at_" ++ toString cutPoint }

/-- The `invalid_chars` strategy: splice the bytes `\x00\xFF\xFE` into the
body at a random point. -/
def corruptInvalidChars (body : String) (r : ℚ) : CorruptionResult :=
  let insertPoint := floorNat (r * (body.length : ℚ))
  { body := strTake body insertPoint ++ "\x00\xFF\xFE" ++ strDrop body insertPoint
    action := "corrupt_json:invalid_chars" }

/-- The `break_syntax` strategy: delete the first occurrence of a randomly
chosen structural character, falling back to chopping the last ten
characters. -/
def corruptBreakSyntax (body : String) (r : ℚ) : CorruptionResult :=
  let chars : List Char := [lbrace, rbrace, '[', ']', '"', ':', ',']
  let charToRemove := chars.getD (floorNat (r * 7)) ' '
  match body.data.findIdx? (fun c => c = charToRemove) with
  | some idx =>
      { body := strTake body idx ++ strDrop body (idx + 1)
        action := "corrupt_json:removed_char:" ++ String.singleton charToRemove }
  | none =>
      { body := strTake body (body.length - 10)
        action := "corrupt_json:truncated_fallback" }

/-- Shared fallback of the `remove_key` strategy: chop five characters and
append a garbage marker. -/
def corruptAppendGarbage (body : String) : CorruptionResult :=
  { body := strTake body (body.length - 5) ++ "<<<CORRUPTED>>>"
    action := "corrupt_json:appended_garbage" }

/-- The `remove_key` strategy: parse the body and delete a random key.
`typeof obj === 'object'` also admits arrays, where `delete` leaves a hole
that stringifies back as `null`. On parse failure, primitives or empty
containers the garbage fallback runs. `delete obj[k]` is modelled as
erasing the (unique) entry carrying key `k`. -/
def corruptRemoveKey (body : String) (r : ℚ) : CorruptionResult :=
  match jsonParse body with
  | some (Json.obj kvs) =>
      if kvs.length > 0 then
        let keys := kvs.map Prod.fst
        let keyToRemove := keys.getD (floorNat (r * (keys.length : ℚ))) ""
        let idx := kvs.findIdx (fun kv => kv.1 == keyToRemove)
        { body := jsonStringify (Json.obj (kvs.eraseIdx idx))
          action := "corrupt_json:removed_key:" ++ keyToRemove }
      else corruptAppendGarbage body
  | some (Json.arr xs) =>
      if xs.length > 0 then
        let idx := floorNat (r * (xs.length : ℚ))
        { body := jsonStringify (Json.arr (xs.set idx Json.null))
          action := "corrupt_json:removed_key:" ++ toString idx }
      else corruptAppendGarbage body
  | _ => corruptAppendGarbage body

/-- `corruptJsonBody`: pick one of the four strategies
(`Math.floor(roll * 4)` indexes the strategy table; `r` is the strategy's
own draw). The unreachable `default` case of the switch is kept. -/
def corruptJsonBody (body : String) (roll r : ℚ) : CorruptionResult :=
  let strategies := ["truncate", "invalid_chars", "break_syntax", "remove_key"]
  let strategy := strategies.getD (floorNat (roll * 4)) ""
  if strategy = "truncate" then corruptTruncate body r
  else if strategy = "invalid_chars" then corruptInvalidChars body r
  else if strategy = "break_syntax" then corruptBreakSyntax body r
  else if strategy = "remove_key" then corruptRemoveKey body r
  else { body := body, action := "corrupt_json:none" }

/-- Whether a JSON value is a non-empty object or a non-empty array. -/
def jsonNonEmptyContainer : Json → Bool
  | Json.arr xs => !xs.isEmpty
  | Json.obj kvs => !kvs.isEmpty
  | _ => false

/-- Replace the value of the `i`-th field with `null`, keeping the key. -/
def nullifyField (kvs : List (String × Json)) (i : Nat) : List (String × Json) :=
  kvs.mapIdx (fun j kv => if j = i then (kv.1, Json.null) else kv)

/-- Every serialisation of the input differing by exactly one top-level
element: one element removed, or one element nullified. -/
def oneTopLevelMutations : Json → List String
  | Json.arr xs =>
      (List.range xs.length).map (fun i => jsonStringify (Json.arr (xs.eraseIdx i)))
        ++ (List.range xs.length).map (fun i => jsonStringify (Json.arr (xs.set i Json.null)))
  | Json.obj kvs =>
      (List.range kvs.length).map (fun i => jsonStringify (Json.obj (kvs.eraseIdx i)))
        ++ (List.range kvs.length).map (fun i => jsonStringify (Json.obj (nullifyField kvs i)))
  | _ => []

/-! ## Pre-proxy pipeline (`chaos-engine.ts`: `runPreProxyPipeline`) -/

/-- An immediate (terminal) response produced by the pre-proxy pipeline. -/
structure ImmediateResponse where
  statusCode : ℤ
  body : String
  contentType : String
  headers : List (String × String) := []
  deriving DecidableEq, Repr

/-- `PreProxyResult`. `timeoutConfig` holds `durationMs` when the timeout
chaos fired; `immediateResponse = none` with `skipUpstream = true` means
hang. -/
structure PreProxyResult where
  skipUpstream : Bool
  immediateResponse : Option ImmediateResponse
  timeoutConfig : Option ℤ := none
  actionsApplied : List String
  matchedRule : Option ChaosRule
  deriving DecidableEq, Repr

/-- The `{error:true, message, chaosMonkey:true}` JSON body. -/
def chaosErrorBody (message : String) : String :=
  jsonStringify (Json.obj
    [("error", Json.bool true), ("message", Json.str message),
     ("chaosMonkey", Json.bool true)])

/-- The rate-limited body, which also carries `retryAfter`. -/
def rateLimitedBody (message : String) (retryAfter : ℤ) : String :=
  jsonStringify (Json.obj
    [("error", Json.bool true), ("message", Json.str message),
     ("retryAfter", Json.num retryAfter), ("chaosMonkey", Json.bool true)])

/-- `runPreProxyPipeline`: match, then dispatch on the matched rule's
chaos type (drop-rate roll, token-bucket consume, timeout hang, forced
error; latency and corrupt fall through to the upstream path). `rand` is
the `Math.random()` draw used by the drop-rate roll or the timeout jitter,
`now` the `Date.now()` reading. The bucket map is threaded through because
the token-bucket branch mutates it. -/
def runPreProxyPipeline (re : RegexEngine) (rules : List ChaosRule)
    (buckets : BucketMap) (rand : ℚ) (now : ℤ) (path method : String) :
    PreProxyResult × BucketMap :=
  match findMatchingRule re rules path method with
  | none =>
      ({ skipUpstream := false, immediateResponse := none,
         actionsApplied := ["match:no_rule"], matchedRule := none }, buckets)
  | some rule =>
    let matchAction := "match:" ++ rule.name
    if rule.chaosType = ChaosType.rateLimit then
      let failRate := rule.failRate.getD 50
      let roll := rand * 100
      if roll < failRate then
        ({ skipUpstream := true,
           immediateResponse := some
             { statusCode := 429,
               body := chaosErrorBody "Too Many Requests (drop rate triggered)",
               contentType := "application/json" },
           actionsApplied := [matchAction, "drop_rate:triggered:" ++ toString failRate ++ "%"],
           matchedRule := some rule }, buckets)
      else
        ({ skipUpstream := false, immediateResponse := none,
           actionsApplied := [matchAction, "drop_rate:passed:" ++ toString failRate ++ "%"],
           matchedRule := some rule }, buckets)
    else if rule.chaosType = ChaosType.tokenBucket then
      let rps := rule.rps.getD 10
      let burst := rule.burst.getD rps
      let bucketKey := method ++ ":" ++ rule.id
      let result := (consumeToken buckets bucketKey rps burst now).1
      let buckets2 := (consumeToken buckets bucketKey rps burst now).2
      match result with
      | ConsumeResult.allowed =>
          ({ skipUpstream := false, immediateResponse := none,
             actionsApplied := [matchAction, "token_bucket:passed"],
             matchedRule := some rule }, buckets2)
      | ConsumeResult.blocked retryAfter =>
          ({ skipUpstream := true,
             immediateResponse := some
               { statusCode := 429,
                 body := rateLimitedBody "Too Many Requests (rate limited)" retryAfter,
                 contentType := "application/json",
                 headers := [("Retry-After", toString retryAfter)] },
             actionsApplied :=
               [matchAction, "token_bucket:blocked(retry_after=" ++ toString retryAfter ++ ")"],
             matchedRule := some rule }, buckets2)
    else if rule.chaosType = ChaosType.timeout then
      let baseTimeout := rule.timeoutMs.getD 8000
      let jitter := rule.jitterMs.getD 0
      let jitterOffset := if jitter > 0 then ⌊rand * (jitter : ℚ) * 2⌋ - jitter else 0
      let durationMs := max 0 (baseTimeout + jitterOffset)
      ({ skipUpstream := true, immediateResponse := none,
         timeoutConfig := some durationMs,
         actionsApplied := [matchAction, "timeout:triggered(ms=" ++ toString durationMs ++ ")"],
         matchedRule := some rule }, buckets)
    else if rule.chaosType = ChaosType.error then
      let statusCode := rule.errorStatusCode.getD 500
      let message := rule.errorMessage.getD "Internal Server Error"
      ({ skipUpstream := true,
         immediateResponse := some
           { statusCode := statusCode, body := chaosErrorBody message,
             contentType := "application/json" },
         actionsApplied := [matchAction, "error:" ++ toString statusCode],
         matchedRule := some rule }, buckets)
    else
      ({ skipUpstream := false, immediateResponse := none,
         actionsApplied := [matchAction], matchedRule := some rule }, buckets)

/-! ## Post-proxy effects (`chaos-engine.ts`: `getPostProxyEffects`) -/

/-- `PostProxyResult`. -/
structure PostProxyResult where
  delayMs : ℤ
  corruptResponse : Bool
  actionsApplied : List String
  deriving DecidableEq, Repr

/-- `getPostProxyEffects`: latency delay and/or corruption flag, computed
from the rule it is handed. `rand` is the draw for the random-latency
range. -/
def getPostProxyEffects (rule : Option ChaosRule) (rand : ℚ) : PostProxyResult :=
  match rule with
  | none => { delayMs := 0, corruptResponse := false, actionsApplied := [] }
  | some rule =>
    let (delayMs, actions) :=
      if rule.chaosType = ChaosType.latency then
        let d :=
          match rule.latencyMs with
          | some v => v
          | none =>
            let mn := rule.latencyMinMs.getD 100
            let mx := rule.latencyMaxMs.getD 1000
            ⌊rand * ((mx : ℚ) - (mn : ℚ) + 1)⌋ + mn
        (d, ["latency:" ++ toString d ++ "ms"])
      else ((0 : ℤ), [])
    { delayMs := delayMs
      corruptResponse := rule.chaosType = ChaosType.corrupt
      actionsApplied := actions }

/-! ## Proxy forwarder (pipeline-based `proxy.ts` middleware) -/

/-- `TIMEOUT_CHAOS_MAX_DURATION_MS` — declared at the top of the proxy
middleware. -/
def TIMEOUT_CHAOS_MAX_DURATION_MS : ℤ := 5 * 60 * 1000

/-- The inbound request, as the handler sees it (the request id and the
ISO timestamp are generated from wall time and a random suffix, so they
enter as data). -/
structure ProxyRequest where
  id : String
  timestamp : String
  method : String
  path : String
  headers : List (String × String) := []
  deriving DecidableEq, Repr

/-- What the upstream `fetch` produced: a status/content-type/body, or a
network error with an optional `cause.code` and the platform's error
text. -/
inductive UpstreamOutcome where
  | ok (status : ℤ) (contentType : String) (body : String)
  | err (code : Option String) (details : String)
  deriving DecidableEq, Repr

/-- A response written to the client. -/
structure HandlerResponse where
  status : ℤ
  contentType : Option String
  headers : List (String × String)
  body : String
  deriving DecidableEq, Repr

/-- Everything observable of one `proxyHandler` run: the response written
(`none` = hang, no HTTP bytes at all), the duration armed on the
socket-destroy timer when hanging, the log entries appended, and the
token-bucket map afterwards. -/
structure HandlerOutcome where
  response : Option HandlerResponse
  hangDurationMs : Option ℤ
  logsAppended : List RequestLog
  buckets : BucketMap
  deriving DecidableEq, Repr

/-- `sendErrorResponse`'s JSON body:
`{error:true, message, ...(details && {details})}`. -/
def sendErrorResponseBody (message : String) (details : Option String) : String :=
  match details with
  | some d =>
      if d = "" then
        jsonStringify (Json.obj [("error", Json.bool true), ("message", Json.str message)])
      else
        jsonStringify (Json.obj
          [("error", Json.bool true), ("message", Json.str message),
           ("details", Json.str d)])
  | none => jsonStringify (Json.obj [("error", Json.bool true), ("message", Json.str message)])

/-- `actionsApplied.join(' → ')`. -/
def joinActions (actions : List String) : String :=
  String.intercalate (" → ") actions

/-- The upstream-error message classification of the pipeline-based
middleware (it distinguishes refused / DNS / timed-out causes only). -/
def upstreamErrorMessage (code : Option String) (details : String) : String × String :=
  match code with
  | some c =>
      if c = "ECONNREFUSED" then
        ("Connection refused by upstream server", details)
      else if c = "ENOTFOUND" then ("DNS resolution failed", details)
      else if c = "ETIMEDOUT" ∨ c = "ESOCKETTIMEDOUT" then
        ("Upstream request timed out", details)
      else ("Failed to reach upstream server", details)
  | none => ("Failed to reach upstream server", details)

/-- The upstream phase of `proxyHandler` (step 5 onwards): forward, then
recompute the matched rule by **running the pre-proxy pipeline a second
time** (this is what the middleware does), apply post effects, corrupt
when asked, log, respond. `actions` holds the actions accumulated before
the upstream call; `log1` the log entry stamped so far. -/
def proxyUpstreamPhase (re : RegexEngine) (rules : List ChaosRule)
    (config : ProxyConfig) (b1 : BucketMap) (req : ProxyRequest)
    (upstream : UpstreamOutcome)
    (postRand latencyRand corruptRoll corruptRand : ℚ) (now : ℤ)
    (actions : List String) (log1 : RequestLog) : HandlerOutcome :=
  match upstream with
  | UpstreamOutcome.ok status ctype ubody =>
      let actions := actions ++ ["upstream:request", "upstream:" ++ toString status]
      let reEval :=
        if enabledTruthy config then
          let pre2 := runPreProxyPipeline re rules b1 postRand now req.path req.method
          (pre2.1.matchedRule, pre2.2)
        else (none, b1)
      let matchedRule := reEval.1
      let b2 := reEval.2
      let post := getPostProxyEffects matchedRule latencyRand
      let actions := if post.delayMs > 0 then actions ++ post.actionsApplied else actions
      let bodyActs :=
        if post.corruptResponse && jsIncludes ctype "application/json" then
          let corrupted := corruptJsonBody ubody corruptRoll corruptRand
          (corrupted.body, actions ++ [corrupted.action])
        else (ubody, actions)
      let finalBody := bodyActs.1
      let actions := bodyActs.2
      let log2 :=
        { log1 with
            statusCode := some (LogStatus.num status)
            responseTime := some 0
            actionsApplied := actions
            chaosDetails :=
              some (joinActions (actions.filter (fun a => !(a.startsWith ("upstream:"))))) }
      { response := some
          { status := status, contentType := some ctype, headers := [], body := finalBody }
        hangDurationMs := none
        logsAppended := [log2]
        buckets := b2 }
  | UpstreamOutcome.err code details =>
      let actions := actions ++ ["upstream:request", "upstream:error:" ++ code.getD "unknown"]
      let (message, details) := upstreamErrorMessage code details
      let log2 :=
        { log1 with
            statusCode := some (LogStatus.num 502)
            responseTime := some 0
            actionsApplied := actions
            chaosDetails := some ("Proxy error: " ++ message) }
      { response := some
          { status := 502, contentType := none, headers := []
            body := sendErrorResponseBody message (some details) }
        hangDurationMs := none
        logsAppended := [log2]
        buckets := b1 }

/-- `proxyHandler` of the pipeline-based middleware. `urlOk` is the
`new URL(...)` oracle (URL construction is outside the model);
`urlErrText` its failure text. `preRand`/`postRand` are the random draws
of the two pipeline evaluations the handler performs. -/
def proxyHandler (re : RegexEngine) (rules : List ChaosRule)
    (config : ProxyConfig) (buckets : BucketMap) (req : ProxyRequest)
    (urlOk : Bool) (urlErrText : String) (upstream : UpstreamOutcome)
    (preRand postRand latencyRand corruptRoll corruptRand : ℚ)
    (now : ℤ) : HandlerOutcome :=
  if !(targetUrlTruthy config) then
    { response := some
        { status := 503, contentType := none, headers := []
          body := sendErrorResponseBody "No target URL configured"
            (some "Set a target URL via PUT /api/config before using the proxy.") }
      hangDurationMs := none
      logsAppended := []
      buckets := buckets }
  else if !urlOk then
    { response := some
        { status := 502, contentType := none, headers := []
          body := sendErrorResponseBody "Invalid target URL"
            (some ("Failed to construct URL: " ++ urlErrText)) }
      hangDurationMs := none
      logsAppended := []
      buckets := buckets }
  else
    let baseLog : RequestLog :=
      { id := req.id, timestamp := req.timestamp, method := req.method,
        path := req.path, headers := req.headers, chaosApplied := false }
    if enabledTruthy config then
      let preOut := runPreProxyPipeline re rules buckets preRand now req.path req.method
      let pre := preOut.1
      let b1 := preOut.2
      let log1 :=
        match pre.matchedRule with
        | some r =>
            { baseLog with
                chaosApplied := true, chaosType := some r.chaosType,
                chaosRuleId := some r.id, chaosRuleName := some r.name }
        | none => baseLog
      if pre.skipUpstream then
        let log2 :=
          { log1 with
              actionsApplied := pre.actionsApplied
              chaosDetails := some (joinActions pre.actionsApplied) }
        match pre.immediateResponse with
        | some ir =>
            { response := some
                { status := ir.statusCode, contentType := some ir.contentType,
                  headers := ir.headers, body := ir.body }
              hangDurationMs := none
              logsAppended :=
                [{ log2 with
                     statusCode := some (LogStatus.num ir.statusCode)
                     responseTime := some 0 }]
              buckets := b1 }
        | none =>
            let timeoutMs := pre.timeoutConfig.getD 8000
            { response := none
              hangDurationMs := some timeoutMs
              logsAppended :=
                [{ log2 with
                     statusCode := some LogStatus.timeoutTag
                     responseTime := some timeoutMs }]
              buckets := b1 }
      else
        proxyUpstreamPhase re rules config b1 req upstream
          postRand latencyRand corruptRoll corruptRand now pre.actionsApplied log1
    else
      proxyUpstreamPhase re rules config buckets req upstream
        postRand latencyRand corruptRoll corruptRand now ["chaos:disabled"] baseLog

/-! ## `POST /rules` handler (`api.ts`) -/

/-- A `POST /rules` request body (`Partial<ChaosRule>` from JSON). -/
structure RulePayload where
  id : Option String := none
  name : Option String := none
  enabled : Option Bool := none
  pathPattern : Option String := none
  methods : Option (List HttpMethod) := none
  chaosType : Option ChaosType := none
  latencyMs : Option ℤ := none
  latencyMinMs : Option ℤ := none
  latencyMaxMs : Option ℤ := none
  errorStatusCode : Option ℤ := none
  errorMessage : Option String := none
  failRate : Option ℚ := none
  deriving Repr

/-- JS truthiness of an optional string (absent or empty is falsy). -/
def optStrTruthy : Option String → Bool
  | none => false
  | some s => s ≠ ""

/-- The `POST /rules` handler: validate that `name`, `pathPattern` and
`chaosType` are present (truthy), generate an id when absent, default
`enabled` to `true` and `methods` to `['*']`, and copy the optional
parameters through unchecked. Returns `none` on the 400 path, otherwise
the rule that gets stored. `genId` is the `rule-${Date.now()}` fallback. -/
def postRulesHandler (body : RulePayload) (genId : String) : Option ChaosRule :=
  if !(optStrTruthy body.name) || !(optStrTruthy body.pathPattern)
      || body.chaosType.isNone then
    none
  else
    match body.name, body.pathPattern, body.chaosType with
    | some name, some pathPattern, some chaosType =>
        some
          { id := if optStrTruthy body.id then body.id.getD genId else genId
            name := name
            enabled := body.enabled.getD true
            pathPattern := pathPattern
            methods := body.methods.getD [HttpMethod.star]
            chaosType := chaosType
            latencyMs := body.latencyMs
            latencyMinMs := body.latencyMinMs
            latencyMaxMs := body.latencyMaxMs
            errorStatusCode := body.errorStatusCode
            errorMessage := body.errorMessage
            failRate := body.failRate }
    | _, _, _ => none

/-! ## Object identity in the rule store (`state.ts` copying discipline)

`getRules` hands out the stored objects themselves, and `getRule` copies
with an object spread, which is shallow: the `methods` array reference is
shared. To reason about what a caller's mutation can reach, rule objects
and method arrays live in an explicit heap of references. The remaining
rule parameters are primitives that the spread copies exactly like
`enabled`; they are represented by the fields below. -/

/-- A reference to a mutable JS object. -/
abbrev Ref := Nat

/-- The own fields of a stored rule object. `methodsRef` points at the
(mutable, shared) methods array object. -/
structure RuleObj where
  id : String
  name : String
  enabled : Bool
  pathPattern : String
  chaosType : ChaosType
  methodsRef : Ref
  deriving DecidableEq, Repr

/-- The heap: rule objects and method arrays, with a fresh-reference
counter. -/
structure Heap where
  ruleObjs : List (Ref × RuleObj)
  arrObjs : List (Ref × List HttpMethod)
  nextRef : Ref
  deriving DecidableEq, Repr

/-- Dereference a rule object. -/
def heapRule (h : Heap) (r : Ref) : Option RuleObj :=
  (h.ruleObjs.find? (fun p => p.1 == r)).map (fun p => p.2)

/-- Dereference a methods array. -/
def heapArr (h : Heap) (r : Ref) : Option (List HttpMethod) :=
  (h.arrObjs.find? (fun p => p.1 == r)).map (fun p => p.2)

/-- Overwrite the rule object behind a reference. -/
def heapSetRule (h : Heap) (r : Ref) (o : RuleObj) : Heap :=
  { h with ruleObjs := h.ruleObjs.map (fun p => if p.1 == r then (p.1, o) else p) }

/-- Overwrite the array object behind a reference. -/
def heapSetArr (h : Heap) (r : Ref) (ms : List HttpMethod) : Heap :=
  { h with arrObjs := h.arrObjs.map (fun p => if p.1 == r then (p.1, ms) else p) }

/-- Allocate a fresh rule object. -/
def heapAllocRule (h : Heap) (o : RuleObj) : Ref × Heap :=
  (h.nextRef,
   { h with ruleObjs := h.ruleObjs ++ [(h.nextRef, o)], nextRef := h.nextRef + 1 })

/-- The module state of `state.ts` relevant to rules: the heap plus the
`chaosRules` map's values in insertion order (as references). -/
structure RuleStore where
  heap : Heap
  rules : List Ref
  deriving DecidableEq, Repr

/-- `getRules`: `Array.from(chaosRules.values())` — the stored references
themselves, no copying. -/
def getRules (s : RuleStore) : List Ref := s.rules

/-- The reference of the stored rule with the given id (`chaosRules.get`). -/
def findRuleRef (s : RuleStore) (id : String) : Option Ref :=
  s.rules.find? (fun r =>
    match heapRule s.heap r with
    | some o => o.id == id
    | none => false)

/-- `getRule`: look up by id and return `{ ...rule }` — a freshly
allocated object whose own fields (including the `methods` reference) are
copied. -/
def getRule (s : RuleStore) (id : String) : Option Ref × RuleStore :=
  match findRuleRef s id with
  | none => (none, s)
  | some r =>
      match heapRule s.heap r with
      | none => (none, s)
      | some o =>
          (some (heapAllocRule s.heap o).1, { s with heap := (heapAllocRule s.heap o).2 })

/-- A caller mutation: assign to the `enabled` field of an object it holds
a reference to. -/
def setEnabledRef (s : RuleStore) (r : Ref) (b : Bool) : RuleStore :=
  match heapRule s.heap r with
  | some o => { s with heap := heapSetRule s.heap r { o with enabled := b } }
  | none => s

/-- A caller mutation: `push` onto the methods array of an object it holds
a reference to. -/
def pushMethodRef (s : RuleStore) (r : Ref) (m : HttpMethod) : RuleStore :=
  match heapRule s.heap r with
  | some o =>
      match heapArr s.heap o.methodsRef with
      | some ms => { s with heap := heapSetArr s.heap o.methodsRef (ms ++ [m]) }
      | none => s
  | none => s

/-- The value content of a rule object: what a reader actually observes
(fields plus the methods array's elements), independent of object
identity. -/
structure RuleValue where
  id : String
  name : String
  enabled : Bool
  pathPattern : String
  chaosType : ChaosType
  methods : List HttpMethod
  deriving DecidableEq, Repr

/-- Observe a rule object's value content. -/
def ruleValue (h : Heap) (r : Ref) : Option RuleValue :=
  match heapRule h r with
  | none => none
  | some o =>
      match heapArr h o.methodsRef with
      | none => none
      | some ms =>
          some { id := o.id, name := o.name, enabled := o.enabled,
                 pathPattern := o.pathPattern, chaosType := o.chaosType,
                 methods := ms }

/-- What a subsequent read of the store observes for a rule id. -/
def storedRuleValue (s : RuleStore) (id : String) : Option RuleValue :=
  match findRuleRef s id with
  | none => none
  | some r => ruleValue s.heap r

/-- A store is wellformed when every live reference is below the
allocation counter and the stored rule references dereference. -/
def storeWF (s : RuleStore) : Prop :=
  (∀ p ∈ s.heap.ruleObjs, p.1 < s.heap.nextRef) ∧
  (∀ p ∈ s.heap.arrObjs, p.1 < s.heap.nextRef) ∧
  (∀ r ∈ s.rules, (heapRule s.heap r).isSome)

/-! ## Concrete fixtures used by witnesses and counterexamples -/

/-- A regex engine in which every pattern fails to compile, forcing the
substring fallback (keeps fixture evaluation independent of any concrete
regex semantics). -/
def reNone : RegexEngine := fun _ => none

/-- A disabled rule. -/
def ruleDisabled : ChaosRule :=
  { id := "d1", name := "off", enabled := false, pathPattern := "/a",
    methods := [HttpMethod.star], chaosType := ChaosType.latency }

/-- An enabled GET rule on `/a`. -/
def ruleGetA : ChaosRule :=
  { id := "g1", name := "g", enabled := true, pathPattern := "/a",
    methods := [HttpMethod.GET], chaosType := ChaosType.latency }

/-- A token-bucket rule with `rps = 1`, `burst = 2`. -/
def ruleTokenBucket : ChaosRule :=
  { id := "tb1", name := "bucket", enabled := true, pathPattern := "/",
    methods := [HttpMethod.star], chaosType := ChaosType.tokenBucket,
    rps := some 1, burst := some 2 }

/-- A timeout rule configured for ten minutes, no jitter. -/
def ruleTimeoutLong : ChaosRule :=
  { id := "t1", name := "slow", enabled := true, pathPattern := "/slow",
    methods := [HttpMethod.star], chaosType := ChaosType.timeout,
    timeoutMs := some 600000, jitterMs := some 0 }

/-- A `GET /x` request. -/
def sampleReq : ProxyRequest :=
  { id := "req1", timestamp := "2024-01-01T00:00:00.000Z", method := "GET", path := "/x" }

/-- A `GET /slow` request. -/
def slowReq : ProxyRequest :=
  { id := "req2", timestamp := "2024-01-01T00:00:00.000Z", method := "GET", path := "/slow" }

/-- A config with a target and chaos enabled. -/
def enabledConfig : ProxyConfig := { targetUrl := some "http://upstream", enabled := some true }

/-- Two distinguishable log entries. -/
def sampleLogA : RequestLog :=
  { id := "a", timestamp := "t1", method := "GET", path := "/1", headers := [],
    chaosApplied := false }

/-- Second sample log entry. -/
def sampleLogB : RequestLog :=
  { id := "b", timestamp := "t2", method := "GET", path := "/2", headers := [],
    chaosApplied := false }

/-- A concrete wellformed rule store holding one rule (`"r1"`, enabled,
methods `['*']` behind reference 1). -/
def sampleStore : RuleStore :=
  { heap :=
      { ruleObjs := [(0, { id := "r1", name := "one", enabled := true,
                           pathPattern := "/a", chaosType := ChaosType.latency,
                           methodsRef := 1 })]
        arrObjs := [(1, [HttpMethod.star])]
        nextRef := 2 }
    rules := [0] }

/-- The error rule that `POST /rules` accepts with `errorStatusCode = 999`
(validation only checks `name`, `pathPattern`, `chaosType`). -/
def rule999 : ChaosRule :=
  { id := "rule-1", name := "boom", enabled := true, pathPattern := "/",
    methods := [HttpMethod.star], chaosType := ChaosType.error,
    errorStatusCode := some 999 }

/-- An error rule returning 503 (in range), for the C7 witness. -/
def err503Rule : ChaosRule :=
  { id := "e503", name := "gate", enabled := true, pathPattern := "/",
    methods := [HttpMethod.star], chaosType := ChaosType.error,
    errorStatusCode := some 503, errorMessage := some "nope" }

/-- The log entry the forwarder appends for `GET /x` under `err503Rule`. -/
def logC7 : RequestLog :=
  { id := "req1", timestamp := "2024-01-01T00:00:00.000Z", method := "GET",
    path := "/x", headers := [],
    statusCode := some (LogStatus.num 503), responseTime := some 0,
    chaosApplied := true, chaosType := some ChaosType.error,
    chaosRuleId := some "e503", chaosRuleName := some "gate",
    chaosDetails := some "match:gate → error:503",
    actionsApplied := ["match:gate", "error:503"] }

/-- The `POST /rules` body carrying `errorStatusCode = 999`. -/
def payload999 : RulePayload :=
  { name := some "boom", pathPattern := some "/",
    chaosType := some ChaosType.error, errorStatusCode := some 999 }

/-! # Theorems -/

/-- `List.find?` characterised as first match: the found element satisfies
the predicate and everything before it refutes it. -/
theorem find?_first_characterisation {α : Type} (p : α → Bool) :
    ∀ (l : List α) (x : α), l.find? p = some x →
      p x = true ∧ ∃ pre post, l = pre ++ x :: post ∧ ∀ y ∈ pre, p y = false := by
  intro l
  induction l with
  | nil => intro x h; simp [List.find?] at h
  | cons a l ih =>
    intro x h
    by_cases hpa : p a = true
    · rw [List.find?_cons_of_pos _ hpa] at h
      cases h
      exact ⟨hpa, [], l, rfl, by simp⟩
    · rw [List.find?_cons_of_neg _ (by simpa using hpa)] at h
      obtain ⟨hx, pre, post, hl, hpre⟩ := ih x h
      refine ⟨hx, a :: pre, post, by rw [hl]; rfl, ?_⟩
      intro y hy
      rcases List.mem_cons.mp hy with rfl | hy2
      · simpa using hpa
      · exact hpre y hy2

/-- **C10** (confirmed). The `PUT /config` handler always passes both
`targetUrl` and `enabled` to `updateConfig`, and the object spread
overwrites stored fields even with `undefined`: the stored config after
the call is exactly the body's two fields, so omitting one of them erases
the stored value (shown concretely in the second conjunct). -/
theorem putConfig_overwrites_both_fields :
    (∀ (c : ProxyConfig) (tu : Option String) (en : Option Bool),
        putConfigHandler tu en c = { targetUrl := tu, enabled := en }) ∧
    (putConfigHandler none (some false)
        { targetUrl := some "http://api.example.com", enabled := some true }).targetUrl
      = none := by
  constructor
  · intro c tu en; rfl
  · rfl

/-- **C4** (confirmed). `findMatchingRule` returns the first enabled rule
in stored order whose method filter admits the method and whose pattern
matches the path, and `none` exactly when no rule matches; a wildcard in
the filter admits every method; the method comparison only depends on the
uppercased token; and a pattern the regex engine rejects degrades to
substring containment. -/
theorem findMatchingRule_spec (re : RegexEngine) (rules : List ChaosRule)
    (path method : String) :
    (∀ r, findMatchingRule re rules path method = some r →
        (r.enabled = true ∧ matchesMethod r.methods method = true ∧
            matchesPath re r.pathPattern path = true) ∧
        ∃ pre post, rules = pre ++ r :: post ∧
          ∀ s ∈ pre, ¬(s.enabled = true ∧ matchesMethod s.methods method = true ∧
              matchesPath re s.pathPattern path = true)) ∧
    (findMatchingRule re rules path method = none ↔
        ∀ r ∈ rules, ¬(r.enabled = true ∧ matchesMethod r.methods method = true ∧
            matchesPath re r.pathPattern path = true)) ∧
    (∀ ms : List HttpMethod, HttpMethod.star ∈ ms → ∀ m, matchesMethod ms m = true) ∧
    (∀ m₁ m₂ : String, jsToUpperCase m₁ = jsToUpperCase m₂ →
        ∀ ms, matchesMethod ms m₁ = matchesMethod ms m₂) ∧
    (∀ pattern p, re pattern = none → matchesPath re pattern p = jsIncludes p pattern) := by
  have hbridge : ∀ r : ChaosRule, ruleMatches re r path method = true ↔
      (r.enabled = true ∧ matchesMethod r.methods method = true ∧
        matchesPath re r.pathPattern path = true) := by
    intro r; simp [ruleMatches, Bool.and_eq_true, and_assoc]
  refine ⟨?_, ?_, ?_, ?_, ?_⟩
  · intro r h
    obtain ⟨hp, pre, post, hl, hpre⟩ :=
      find?_first_characterisation (fun r => ruleMatches re r path method) rules r h
    refine ⟨(hbridge r).mp hp, pre, post, hl, ?_⟩
    intro s hs hc
    have hfalse := hpre s hs
    rw [(hbridge s).mpr hc] at hfalse
    cases hfalse
  · rw [findMatchingRule, List.find?_eq_none]
    constructor
    · intro h r hr hc
      have := h r hr
      rw [(hbridge r).mpr hc] at this
      simp at this
    · intro h r hr
      simp only [Bool.not_eq_true]
      by_contra hb
      exact h r hr ((hbridge r).mp (by simpa using hb))
  · intro ms hstar m
    simp [matchesMethod, List.contains_eq_any_beq]
    exact Or.inl hstar
  · intro m₁ m₂ hm ms
    simp [matchesMethod, hm]
  · intro pattern p h
    simp [matchesPath, h]

/-- Witness for `findMatchingRule_spec`: a disabled rule is skipped and
the second rule is the first match; the wildcard and case-insensitivity
facts at concrete methods; the fallback at the non-compiling pattern
`[`. -/
theorem findMatchingRule_spec_witness :
    ((ruleGetA.enabled = true ∧ matchesMethod ruleGetA.methods ("get") = true ∧
        matchesPath reNone ruleGetA.pathPattern ("/ax") = true) ∧
      ∃ pre post, [ruleDisabled, ruleGetA] = pre ++ ruleGetA :: post ∧
        ∀ s ∈ pre, ¬(s.enabled = true ∧ matchesMethod s.methods ("get") = true ∧
            matchesPath reNone s.pathPattern ("/ax") = true)) ∧
    matchesMethod [HttpMethod.star] ("delete") = true ∧
    matchesMethod [HttpMethod.GET] ("get") = matchesMethod [HttpMethod.GET] ("GET") ∧
    matchesPath reNone ("[") ("/a[b") = jsIncludes ("/a[b") ("[") := by
  obtain ⟨h1, _h2, h3, h4, h5⟩ :=
    findMatchingRule_spec reNone [ruleDisabled, ruleGetA] ("/ax") ("get")
  refine ⟨h1 ruleGetA (by with_unfolding_all decide), ?_, ?_, ?_⟩
  · exact h3 [HttpMethod.star] (by decide) ("delete")
  · exact h4 ("get") ("GET") (by decide) [HttpMethod.GET]
  · exact h5 ("[") ("/a[b") rfl

/-- Writing a bucket makes it the one subsequently read for that key. -/
theorem bucketGet_cons (k1 : String) (v1 : TokenBucket) (l : BucketMap) (k : String) :
    bucketGet ((k1, v1) :: l) k = if k1 == k then some v1 else bucketGet l k := by
  by_cases h : k1 == k <;> simp [bucketGet, List.find?, h]

/-- Overwriting a key yields the written bucket on a subsequent read. -/
theorem bucketGet_bucketSet_self (m : BucketMap) (k : String) (b : TokenBucket) :
    bucketGet (bucketSet m k b) k = some b := by
  induction m with
  | nil => simp [bucketSet, bucketGet, List.find?]
  | cons p rest ih =>
    obtain ⟨k1, v1⟩ := p
    by_cases h : k1 = k
    · subst h; simp [bucketSet, bucketGet_cons]
    · simp [bucketSet, h, bucketGet_cons, ih]

/-- Two writes to the same key collapse to the last one. -/
theorem bucketSet_bucketSet (m : BucketMap) (k : String) (b1 b2 : TokenBucket) :
    bucketSet (bucketSet m k b1) k b2 = bucketSet m k b2 := by
  induction m with
  | nil => simp [bucketSet]
  | cons p rest ih =>
    obtain ⟨k1, v1⟩ := p
    by_cases h : k1 = k
    · subst h; simp [bucketSet]
    · simp [bucketSet, h, ih]

/-- Closed form of one consume call: the refill-and-consume arithmetic of
`getOrCreateBucket` followed by `tryConsumeToken`, as a single map
update. -/
theorem consumeToken_eq (m : BucketMap) (key : String) (rps burst : ℚ) (now : ℤ) :
    consumeToken m key rps burst now =
      (let t0 := match bucketGet m key with
                 | some b => b.tokens
                 | none => burst
       let lr := match bucketGet m key with
                 | some b => b.lastRefill
                 | none => now
       let refilled := min burst (t0 + ((now - lr : ℤ) : ℚ) / 1000 * rps)
       if 1 ≤ refilled then
         (ConsumeResult.allowed,
          bucketSet m key
            { tokens := refilled - 1, lastRefill := now, rps := rps, burst := burst })
       else
         (ConsumeResult.blocked (max 1 ⌈(1 - refilled) / rps⌉),
          bucketSet m key
            { tokens := refilled, lastRefill := now, rps := rps, burst := burst })) := by
  unfold consumeToken getOrCreateBucket tryConsumeToken
  cases hb : bucketGet m key with
  | none =>
    simp only [hb, ge_iff_le]
    split <;> rw [bucketSet_bucketSet]
  | some b =>
    simp only [hb, ge_iff_le]
    split <;> rw [bucketSet_bucketSet]

/-- **C3** (confirmed). One token-bucket consume call: the bucket for the
key exists afterwards with `rps` and `burst` refreshed from the arguments
and `lastRefill = now`; its token count is the previous count (or `burst`
on creation, with a zero elapsed time) plus `elapsedSec × rps`, clamped to
`burst`; the call is allowed, consuming one token, exactly when that
refilled count reaches `1`, and otherwise blocks with
`retryAfter = max(1, ⌈(1 − tokens)/rps⌉)` whole seconds. -/
theorem consumeToken_spec (m : BucketMap) (key : String) (rps burst : ℚ) (now : ℤ) :
    let t0 := match bucketGet m key with
              | some b => b.tokens
              | none => burst
    let lr := match bucketGet m key with
              | some b => b.lastRefill
              | none => now
    let refilled := min burst (t0 + ((now - lr : ℤ) : ℚ) / 1000 * rps)
    ∃ b2, bucketGet (consumeToken m key rps burst now).2 key = some b2 ∧
      b2.rps = rps ∧ b2.burst = burst ∧ b2.lastRefill = now ∧
      (if 1 ≤ refilled then
          (consumeToken m key rps burst now).1 = ConsumeResult.allowed ∧
            b2.tokens = refilled - 1
        else
          (consumeToken m key rps burst now).1 =
              ConsumeResult.blocked (max 1 ⌈(1 - refilled) / rps⌉) ∧
            b2.tokens = refilled) := by
  rw [consumeToken_eq]
  dsimp only
  split
  · exact ⟨_, bucketGet_bucketSet_self _ _ _, rfl, rfl, rfl, rfl, rfl⟩
  · exact ⟨_, bucketGet_bucketSet_self _ _ _, rfl, rfl, rfl, rfl, rfl⟩

/-- Appending one entry to the retained suffix of a history is retaining
the suffix of the grown history: the cap evicts exactly the oldest. -/
theorem addLog_lastN (h : List RequestLog) (l : RequestLog) :
    addLog (lastN MAX_LOGS h) l = lastN MAX_LOGS (h ++ [l]) := by
  unfold addLog lastN
  dsimp only
  by_cases hlen : h.length ≤ MAX_LOGS - 1
  · have h0 : h.length - MAX_LOGS = 0 := by unfold MAX_LOGS at *; omega
    have h1 : (List.drop (h.length - MAX_LOGS) h ++ [l]).length = h.length + 1 := by
      simp [h0]
    rw [h1]
    have h2 : ¬ (h.length + 1 > MAX_LOGS) := by unfold MAX_LOGS at *; omega
    rw [if_neg h2]
    have h3 : (h ++ [l]).length - MAX_LOGS = 0 := by
      simp only [List.length_append, List.length_cons, List.length_nil]
      unfold MAX_LOGS at *; omega
    rw [h3, h0]
    simp
  · have hge : MAX_LOGS ≤ h.length := by unfold MAX_LOGS at *; omega
    have hlen1 : (List.drop (h.length - MAX_LOGS) h).length = MAX_LOGS := by
      rw [List.length_drop]; omega
    have h1 : (List.drop (h.length - MAX_LOGS) h ++ [l]).length = MAX_LOGS + 1 := by
      simp [hlen1]
    rw [h1, if_pos (by omega)]
    have h2 : MAX_LOGS + 1 - MAX_LOGS = 1 := by omega
    rw [h2]
    have h3 : (1 : ℕ) ≤ (List.drop (h.length - MAX_LOGS) h).length := by
      rw [hlen1]; unfold MAX_LOGS; omega
    rw [List.drop_append_of_le_length h3]
    have h4 : (h ++ [l]).length - MAX_LOGS = (h.length - MAX_LOGS) + 1 := by
      simp only [List.length_append, List.length_cons, List.length_nil]
      omega
    rw [h4]
    have h5 : (h.length - MAX_LOGS) + 1 ≤ h.length := by omega
    rw [List.drop_append_of_le_length h5]
    rw [List.drop_drop, Nat.add_comm]

/-- The store contents after any operation sequence: exactly the most
recent `MAX_LOGS` entries of the append history since the last clear. -/
theorem runLogOps_eq_lastN (ops : List LogOp) :
    runLogOps ops = lastN MAX_LOGS (appendHistory ops) := by
  have key : ∀ (ops : List LogOp) (hist : List RequestLog),
      ops.foldl logStep (lastN MAX_LOGS hist) = lastN MAX_LOGS (ops.foldl histStep hist) := by
    intro ops
    induction ops with
    | nil => intro hist; rfl
    | cons op ops ih =>
      intro hist
      cases op with
      | append l =>
          rw [List.foldl_cons, List.foldl_cons]
          show ops.foldl logStep (addLog (lastN MAX_LOGS hist) l)
            = lastN MAX_LOGS (ops.foldl histStep (hist ++ [l]))
          rw [addLog_lastN]
          exact ih (hist ++ [l])
      | read lim =>
          rw [List.foldl_cons, List.foldl_cons]
          exact ih hist
      | clear =>
          rw [List.foldl_cons, List.foldl_cons]
          exact ih []
  exact key ops []

/-- **C8** (corrected from the claim). After any sequence of log-store
operations the store holds at most `MAX_LOGS = 1000` entries and is
exactly the suffix of the append history since the last clear (FIFO
eviction of the oldest); `getLogs` reads newest-first, truncating to a
**positive** limit; a limit of `0` is falsy in JS and returns everything
instead of truncating. -/
theorem logStore_spec :
    (∀ ops : List LogOp, (runLogOps ops).length ≤ MAX_LOGS) ∧
    (∀ ops : List LogOp, runLogOps ops = lastN MAX_LOGS (appendHistory ops)) ∧
    (∀ logs : List RequestLog, getLogs logs none = logs.reverse) ∧
    (∀ (logs : List RequestLog) (n : ℤ), 0 < n →
        getLogs logs (some n) = logs.reverse.take n.toNat) ∧
    (∀ logs : List RequestLog, getLogs logs (some 0) = logs.reverse) := by
  refine ⟨?_, runLogOps_eq_lastN, ?_, ?_, ?_⟩
  · intro ops
    rw [runLogOps_eq_lastN]
    unfold lastN
    rw [List.length_drop]
    omega
  · intro logs; rfl
  · intro logs n hn
    unfold getLogs jsSliceToStop
    dsimp only
    rw [if_neg (by omega), if_neg (by omega)]
  · intro logs
    unfold getLogs
    dsimp only
    rw [if_pos rfl]

/-- Witness for `logStore_spec`: the cap holds on a two-append run, and a
limit of `1` keeps only the newest entry. -/
theorem logStore_spec_witness :
    (runLogOps [LogOp.append sampleLogA, LogOp.append sampleLogB]).length ≤ MAX_LOGS ∧
    getLogs [sampleLogA, sampleLogB] (some 1) = [sampleLogB] := by
  constructor
  · exact logStore_spec.1 [LogOp.append sampleLogA, LogOp.append sampleLogB]
  · have h := logStore_spec.2.2.2.1 [sampleLogA, sampleLogB] 1 (by omega)
    rw [h]
    rfl

/-- **C8 counterexample.** `readLogs` does not truncate to the limit when
the limit is `0`: two stored entries are returned in full. -/
theorem getLogs_zero_limit_counterexample :
    ¬ (∀ (logs : List RequestLog) (n : ℤ), 0 ≤ n →
        getLogs logs (some n) = logs.reverse.take n.toNat) := by
  intro hclaim
  have h0 := hclaim [sampleLogA, sampleLogB] 0 (le_refl 0)
  have h1 : getLogs [sampleLogA, sampleLogB] (some 0) = [sampleLogB, sampleLogA] := rfl
  rw [h1] at h0
  simp at h0

/-- **C6** (corrected from the claim) — the amended behaviour. With no
usable target URL the handler responds `503` with message
`No target URL configured` and details pointing at `PUT /api/config`, and
returns **without appending any log entry** and without touching the
buckets. -/
theorem noTargetUrl_behaviour (re : RegexEngine) (rules : List ChaosRule)
    (config : ProxyConfig) (buckets : BucketMap) (req : ProxyRequest)
    (urlOk : Bool) (urlErrText : String) (upstream : UpstreamOutcome)
    (preRand postRand latencyRand corruptRoll corruptRand : ℚ) (now : ℤ)
    (h : targetUrlTruthy config = false) :
    proxyHandler re rules config buckets req urlOk urlErrText upstream
        preRand postRand latencyRand corruptRoll corruptRand now =
      { response := some
          { status := 503, contentType := none, headers := []
            body := sendErrorResponseBody "No target URL configured"
              (some "Set a target URL via PUT /api/config before using the proxy.") }
        hangDurationMs := none
        logsAppended := []
        buckets := buckets } := by
  unfold proxyHandler
  rw [h]
  rfl

/-- Witness for `noTargetUrl_behaviour` at the empty target URL. -/
theorem noTargetUrl_behaviour_witness :
    targetUrlTruthy { targetUrl := some "", enabled := some true } = false ∧
    proxyHandler reNone [] { targetUrl := some "", enabled := some true } [] sampleReq
        true "" (UpstreamOutcome.ok 200 "text/plain" "ok") 0 0 0 0 0 0 =
      { response := some
          { status := 503, contentType := none, headers := []
            body := sendErrorResponseBody "No target URL configured"
              (some "Set a target URL via PUT /api/config before using the proxy.") }
        hangDurationMs := none
        logsAppended := []
        buckets := [] } := by
  refine ⟨rfl, ?_⟩
  exact noTargetUrl_behaviour reNone [] _ [] sampleReq true "" _ 0 0 0 0 0 0 rfl

/-- **C6 counterexample.** On an empty target URL the handler appends no
log entry at all, and the details string in the 503 body names
`PUT /api/config`, not the claimed "management interface" wording. -/
theorem noTargetUrl_counterexample :
    (proxyHandler reNone [] { targetUrl := some "", enabled := some true } [] sampleReq
        true "" (UpstreamOutcome.ok 200 "text/plain" "ok") 0 0 0 0 0 0).logsAppended = [] ∧
    ((proxyHandler reNone [] { targetUrl := some "", enabled := some true } [] sampleReq
        true "" (UpstreamOutcome.ok 200 "text/plain" "ok") 0 0 0 0 0 0).response.map
        HandlerResponse.body) =
      some ("\x7b\"error\":true,\"message\":\"No target URL configured\",\"details\":\"Set a target URL via PUT /api/config before using the proxy.\"\x7d") ∧
    ("\x7b\"error\":true,\"message\":\"No target URL configured\",\"details\":\"Set a target URL via PUT /api/config before using the proxy.\"\x7d" : String) ≠
      ("\x7b\"error\":true,\"message\":\"No target URL configured\",\"details\":\"Set a target URL via the management interface before using the proxy.\"\x7d" : String) := by
  refine ⟨rfl, rfl, ?_⟩
  decide

/-- **C5** (code bug). The five-minute cap constant is declared but never
applied: a timeout rule configured for ten minutes arms the socket-destroy
timer for the full 600000 ms, exceeding
`TIMEOUT_CHAOS_MAX_DURATION_MS = 300000`. -/
theorem timeoutCap_not_applied :
    (proxyHandler reNone [ruleTimeoutLong] enabledConfig [] slowReq true ""
        (UpstreamOutcome.ok 200 "text/plain" "ok") 0 0 0 0 0 0).hangDurationMs
      = some 600000 ∧
    TIMEOUT_CHAOS_MAX_DURATION_MS = 300000 ∧
    ¬((600000 : ℤ) ≤ TIMEOUT_CHAOS_MAX_DURATION_MS) := by
  refine ⟨?_, rfl, by decide⟩
  decide

/-- **C1** (code bug). The forwarder does not carry the matched rule from
the pre-upstream stage to the post-upstream stage: it re-runs the whole
pre-proxy pipeline after the upstream call. With a token-bucket rule of
`burst = 2`, a single forwarded request leaves the bucket at `0` tokens
(two consumptions), while one pipeline evaluation alone leaves it at `1`. -/
theorem postUpstream_repeats_pipeline :
    (bucketGet (proxyHandler reNone [ruleTokenBucket] enabledConfig [] sampleReq true ""
        (UpstreamOutcome.ok 200 "text/plain" "hi") 0 0 0 0 0 0).buckets
        ("GET:tb1")).map TokenBucket.tokens = some 0 ∧
    (bucketGet (runPreProxyPipeline reNone [ruleTokenBucket] [] 0 0 "/x" "GET").2
        ("GET:tb1")).map TokenBucket.tokens = some 1 := by
  constructor <;> with_unfolding_all decide

/-- Any immediate (terminal) response the pre-proxy pipeline produces has
a status in `[100, 599]`, provided every rule's configured
`errorStatusCode` does: the pipeline only ever answers `429` or the
matched rule's error status (default `500`). -/
theorem runPreProxyPipeline_immediate_status (re : RegexEngine) (rules : List ChaosRule)
    (buckets : BucketMap) (rand : ℚ) (now : ℤ) (path method : String)
    (h1 : ∀ r ∈ rules, ∀ sc, r.errorStatusCode = some sc → 100 ≤ sc ∧ sc ≤ 599)
    (ir : ImmediateResponse)
    (h : (runPreProxyPipeline re rules buckets rand now path method).1.immediateResponse
          = some ir) :
    100 ≤ ir.statusCode ∧ ir.statusCode ≤ 599 := by
  unfold runPreProxyPipeline at h
  cases hf : findMatchingRule re rules path method with
  | none => rw [hf] at h; simp at h
  | some rule =>
    rw [hf] at h
    have hmem : rule ∈ rules := List.mem_of_find?_eq_some hf
    dsimp only at h
    split at h
    · -- rate-limit
      split at h
      · simp only [Option.some.injEq] at h
        subst h
        exact ⟨by norm_num, by norm_num⟩
      · simp at h
    · split at h
      · -- token-bucket
        split at h
        · simp at h
        · simp only [Option.some.injEq] at h
          subst h
          exact ⟨by norm_num, by norm_num⟩
      · split at h
        · -- timeout: hang, no immediate response
          simp at h
        · split at h
          · -- forced error
            simp only [Option.some.injEq] at h
            subst h
            cases hsc : rule.errorStatusCode with
            | none => simp [hsc]
            | some sc =>
                have := h1 rule hmem sc hsc
                simpa [hsc] using this
          · simp at h

/-- Every log entry appended by the upstream phase carries either the
upstream status or `502`. -/
theorem proxyUpstreamPhase_logStatus (re : RegexEngine) (rules : List ChaosRule)
    (config : ProxyConfig) (b1 : BucketMap) (req : ProxyRequest)
    (upstream : UpstreamOutcome) (postRand latencyRand corruptRoll corruptRand : ℚ)
    (now : ℤ) (actions : List String) (log1 : RequestLog)
    (h2 : ∀ st ct ub, upstream = UpstreamOutcome.ok st ct ub → 100 ≤ st ∧ st ≤ 599) :
    ∀ log ∈ (proxyUpstreamPhase re rules config b1 req upstream postRand latencyRand
        corruptRoll corruptRand now actions log1).logsAppended,
      log.statusCode = some LogStatus.timeoutTag ∨
      ∃ n, log.statusCode = some (LogStatus.num n) ∧ 100 ≤ n ∧ n ≤ 599 := by
  cases hu : upstream with
  | ok st ct ub =>
    intro log hlog
    simp only [proxyUpstreamPhase] at hlog
    simp only [List.mem_singleton] at hlog
    subst hlog
    have hst := h2 st ct ub hu
    exact Or.inr ⟨st, rfl, hst.1, hst.2⟩
  | err code details =>
    intro log hlog
    simp only [proxyUpstreamPhase] at hlog
    simp only [List.mem_singleton] at hlog
    subst hlog
    exact Or.inr ⟨502, rfl, by norm_num, by norm_num⟩

/-- **C7** (corrected from the claim) — the amended invariant. Whenever
every rule's configured `errorStatusCode` lies in `[100, 599]` and the
upstream status does too, every log entry the forwarder appends has a
`statusCode` that is either the literal timeout tag or an integer in
`[100, 599]`. (Unconstrained error rules break the invariant, see the
counterexample.) -/
theorem proxyHandler_logStatus_range (re : RegexEngine) (rules : List ChaosRule)
    (config : ProxyConfig) (buckets : BucketMap) (req : ProxyRequest)
    (urlOk : Bool) (urlErrText : String) (upstream : UpstreamOutcome)
    (preRand postRand latencyRand corruptRoll corruptRand : ℚ) (now : ℤ)
    (h1 : ∀ r ∈ rules, ∀ sc, r.errorStatusCode = some sc → 100 ≤ sc ∧ sc ≤ 599)
    (h2 : ∀ st ct ub, upstream = UpstreamOutcome.ok st ct ub → 100 ≤ st ∧ st ≤ 599) :
    ∀ log ∈ (proxyHandler re rules config buckets req urlOk urlErrText upstream
        preRand postRand latencyRand corruptRoll corruptRand now).logsAppended,
      log.statusCode = some LogStatus.timeoutTag ∨
      ∃ n, log.statusCode = some (LogStatus.num n) ∧ 100 ≤ n ∧ n ≤ 599 := by
  intro log hlog
  unfold proxyHandler at hlog
  split at hlog
  · simp at hlog
  · split at hlog
    · simp at hlog
    · split at hlog
      · -- chaos enabled: pre-proxy pipeline ran
        dsimp only at hlog
        split at hlog
        · -- terminal decision
          split at hlog
          · -- immediate response
            next ir heq =>
              simp only [List.mem_singleton] at hlog
              subst hlog
              have := runPreProxyPipeline_immediate_status re rules buckets preRand now
                req.path req.method h1 ir heq
              exact Or.inr ⟨ir.statusCode, rfl, this.1, this.2⟩
          · -- hang
            simp only [List.mem_singleton] at hlog
            subst hlog
            exact Or.inl rfl
        · exact proxyUpstreamPhase_logStatus re rules config _ req upstream postRand
            latencyRand corruptRoll corruptRand now _ _ h2 log hlog
      · exact proxyUpstreamPhase_logStatus re rules config _ req upstream postRand
          latencyRand corruptRoll corruptRand now _ _ h2 log hlog

/-- Witness for `proxyHandler_logStatus_range`: the `503` error rule's
immediate response is logged with a status inside the range. -/
theorem proxyHandler_logStatus_range_witness :
    logC7 ∈ (proxyHandler reNone [err503Rule] enabledConfig [] sampleReq true ""
        (UpstreamOutcome.ok 200 "text/plain" "ok") 0 0 0 0 0 0).logsAppended ∧
    (logC7.statusCode = some LogStatus.timeoutTag ∨
      ∃ n, logC7.statusCode = some (LogStatus.num n) ∧ 100 ≤ n ∧ n ≤ 599) := by
  have hmem : logC7 ∈ (proxyHandler reNone [err503Rule] enabledConfig [] sampleReq true ""
      (UpstreamOutcome.ok 200 "text/plain" "ok") 0 0 0 0 0 0).logsAppended := by
    decide
  refine ⟨hmem, ?_⟩
  refine proxyHandler_logStatus_range reNone [err503Rule] enabledConfig [] sampleReq true ""
      (UpstreamOutcome.ok 200 "text/plain" "ok") 0 0 0 0 0 0 ?_ ?_ logC7 hmem
  · intro r hr sc hsc
    rw [List.mem_singleton] at hr
    subst hr
    rw [show err503Rule.errorStatusCode = some 503 from rfl] at hsc
    cases hsc
    exact ⟨by norm_num, by norm_num⟩
  · intro st ct ub h
    cases h
    exact ⟨by norm_num, by norm_num⟩

/-- **C7 counterexample.** `POST /rules` accepts an error rule with
`errorStatusCode = 999` (only `name`, `pathPattern`, `chaosType` are
validated), and the forwarder then appends a log entry whose `statusCode`
is `999`, outside `[100, 599]` and not the timeout tag. -/
theorem errorStatus999_reachable :
    postRulesHandler payload999 "rule-1" = some rule999 ∧
    ((proxyHandler reNone [rule999] enabledConfig [] sampleReq true ""
        (UpstreamOutcome.ok 200 "text/plain" "ok") 0 0 0 0 0 0).logsAppended).map
        RequestLog.statusCode = [some (LogStatus.num 999)] ∧
    ¬(100 ≤ (999 : ℤ) ∧ (999 : ℤ) ≤ 599) := by
  refine ⟨?_, ?_, by decide⟩
  · decide
  · decide

/-- A draw in `[0, 1)` floors below `n` after scaling by `n`. -/
theorem floorNat_lt (r : ℚ) (n : Nat) (_h0 : 0 ≤ r) (h1 : r < 1) (hn : 0 < n) :
    floorNat (r * (n : ℚ)) < n := by
  have hcast : (0 : ℚ) < (n : ℚ) := by exact_mod_cast hn
  have h2 : ⌊r * (n : ℚ)⌋ < (n : ℤ) := by
    apply Int.floor_lt.mpr
    push_cast
    nlinarith [mul_lt_mul_of_pos_right h1 hcast]
  unfold floorNat
  omega

/-- A strategy roll flooring to `3` selects the `remove_key` strategy. -/
theorem corruptJsonBody_strategy3 (body : String) (roll r : ℚ)
    (hroll : floorNat (roll * 4) = 3) :
    corruptJsonBody body roll r = corruptRemoveKey body r := by
  unfold corruptJsonBody
  rw [hroll]
  rfl

/-- **C2** (corrected from the claim) — the amended behaviour, proved for
the strategy the claim describes. Under the `remove_key` strategy, when
the body parses as JSON with a non-empty object or array at top level,
the output differs from the input by exactly one top-level element: a key
is removed from an object, an array slot is nullified (the `delete` hole
stringifies as `null`). The other three strategies corrupt the text
lexically instead (see the counterexample). -/
theorem corruptJsonBody_removeKey_one_mutation (body : String) (roll r : ℚ) (j : Json)
    (hroll : floorNat (roll * 4) = 3) (hr0 : 0 ≤ r) (hr1 : r < 1)
    (hparse : jsonParse body = some j) (hne : jsonNonEmptyContainer j = true) :
    (corruptJsonBody body roll r).body ∈ oneTopLevelMutations j := by
  rw [corruptJsonBody_strategy3 body roll r hroll]
  unfold corruptRemoveKey
  rw [hparse]
  cases j with
  | null => simp [jsonNonEmptyContainer] at hne
  | bool b => simp [jsonNonEmptyContainer] at hne
  | num n => simp [jsonNonEmptyContainer] at hne
  | str s => simp [jsonNonEmptyContainer] at hne
  | arr xs =>
      have hxs : 0 < xs.length := by
        cases xs with
        | nil => simp [jsonNonEmptyContainer] at hne
        | cons a l => simp
      have hidx : floorNat (r * (xs.length : ℚ)) < xs.length :=
        floorNat_lt r xs.length hr0 hr1 hxs
      dsimp only
      rw [if_pos hxs]
      unfold oneTopLevelMutations
      exact List.mem_append_right _
        (List.mem_map.mpr ⟨_, List.mem_range.mpr hidx, rfl⟩)
  | obj kvs =>
      have hk : 0 < kvs.length := by
        cases kvs with
        | nil => simp [jsonNonEmptyContainer] at hne
        | cons a l => simp
      have hklen : (kvs.map Prod.fst).length = kvs.length := List.length_map _ _
      have hi : floorNat (r * ((kvs.map Prod.fst).length : ℚ)) < (kvs.map Prod.fst).length :=
        floorNat_lt r _ hr0 hr1 (by omega)
      have hlt : floorNat (r * ((kvs.map Prod.fst).length : ℚ)) < kvs.length := by omega
      have hkey : (kvs.map Prod.fst).getD (floorNat (r * ((kvs.map Prod.fst).length : ℚ))) ""
          = (kvs.get ⟨floorNat (r * ((kvs.map Prod.fst).length : ℚ)), hlt⟩).1 := by
        rw [List.getD_eq_getElem _ _ hi]
        simp [List.getElem_map]
      have hexists : ∃ kv ∈ kvs,
          (kv.1 == (kvs.map Prod.fst).getD (floorNat (r * ((kvs.map Prod.fst).length : ℚ))) "")
            = true := by
        refine ⟨kvs.get ⟨floorNat (r * ((kvs.map Prod.fst).length : ℚ)), hlt⟩,
          List.get_mem kvs _ hlt, ?_⟩
        rw [hkey]
        exact beq_self_eq_true _
      have hfind :
          kvs.findIdx (fun kv =>
              kv.1 == (kvs.map Prod.fst).getD (floorNat (r * ((kvs.map Prod.fst).length : ℚ))) "")
            < kvs.length := List.findIdx_lt_length_of_exists hexists
      dsimp only
      rw [if_pos hk]
      unfold oneTopLevelMutations
      exact List.mem_append_left _
        (List.mem_map.mpr ⟨_, List.mem_range.mpr hfind, rfl⟩)

/-- Witness for `corruptJsonBody_removeKey_one_mutation`: the remove-key
strategy on `\x7b"a":1,"b":2\x7d` with draw `0` removes the key `a`. -/
theorem corruptJsonBody_removeKey_witness :
    floorNat ((3 / 4 : ℚ) * 4) = 3 ∧
    (corruptJsonBody ("\x7b\"a\":1,\"b\":2\x7d") (3 / 4) 0).body ∈
      oneTopLevelMutations (Json.obj [("a", Json.num 1), ("b", Json.num 2)]) := by
  have hroll : floorNat ((3 / 4 : ℚ) * 4) = 3 := by
    with_unfolding_all decide
  refine ⟨hroll, ?_⟩
  exact corruptJsonBody_removeKey_one_mutation ("\x7b\"a\":1,\"b\":2\x7d") (3 / 4) 0
    (Json.obj [("a", Json.num 1), ("b", Json.num 2)]) hroll (le_refl 0) (by norm_num)
    rfl (by decide)

/-- **C2 counterexample.** The strategy roll can select `truncate`: on the
valid one-key object `\x7b"a":1\x7d` the output is the torn prefix
`\x7b"` — not a removal or nullification of one top-level element. -/
theorem corruptJsonBody_claim_false :
    ¬ (∀ (body : String) (roll r : ℚ) (j : Json), 0 ≤ roll → roll < 1 → 0 ≤ r → r < 1 →
        jsonParse body = some j → jsonNonEmptyContainer j = true →
        (corruptJsonBody body roll r).body ∈ oneTopLevelMutations j) := by
  intro hclaim
  have hm := hclaim ("\x7b\"a\":1\x7d") 0 0 (Json.obj [("a", Json.num 1)])
      (le_refl 0) (by norm_num) (le_refl 0) (by norm_num) rfl (by decide)
  have hbody : (corruptJsonBody ("\x7b\"a\":1\x7d") 0 0).body = ("\x7b\"") := by
    with_unfolding_all rfl
  rw [hbody] at hm
  exact absurd hm (by decide)

/-- `find?` over an append when the first part misses. -/
theorem find?_append_none {α : Type} (p : α → Bool) (l₁ l₂ : List α)
    (h : l₁.find? p = none) : (l₁ ++ l₂).find? p = l₂.find? p := by
  induction l₁ with
  | nil => rfl
  | cons a rest ih =>
    by_cases hp : p a = true
    · rw [List.find?_cons_of_pos _ hp] at h; cases h
    · rw [List.find?_cons_of_neg _ (by simpa using hp)] at h
      rw [List.cons_append, List.find?_cons_of_neg _ (by simpa using hp)]
      exact ih h

/-- `find?` over an append when the first part hits. -/
theorem find?_append_some {α : Type} (p : α → Bool) (l₁ l₂ : List α) (x : α)
    (h : l₁.find? p = some x) : (l₁ ++ l₂).find? p = some x := by
  induction l₁ with
  | nil => cases h
  | cons a rest ih =>
    by_cases hp : p a = true
    · rw [List.find?_cons_of_pos _ hp] at h
      rw [List.cons_append, List.find?_cons_of_pos _ hp]
      exact h
    · rw [List.find?_cons_of_neg _ (by simpa using hp)] at h
      rw [List.cons_append, List.find?_cons_of_neg _ (by simpa using hp)]
      exact ih h

/-- `find?` only depends on the predicate's values on the list. -/
theorem find?_congr_pred {α : Type} (p q : α → Bool) (l : List α)
    (hpq : ∀ x ∈ l, p x = q x) : l.find? p = l.find? q := by
  induction l with
  | nil => rfl
  | cons a rest ih =>
    have ha := hpq a (List.mem_cons_self _ _)
    by_cases hp : p a = true
    · rw [List.find?_cons_of_pos _ hp, List.find?_cons_of_pos _ (ha ▸ hp)]
    · rw [List.find?_cons_of_neg _ (by simpa using hp),
        List.find?_cons_of_neg _ (by rw [← ha]; simpa using hp)]
      exact ih (fun x hx => hpq x (List.mem_cons_of_mem _ hx))

/-- Updating the object behind one reference leaves every other
reference's lookup unchanged (the update keeps keys). -/
theorem find?_update_key_ne {β : Type} (l : List (Ref × β)) (r2 r : Ref) (o : β)
    (hne : r ≠ r2) :
    List.find? (fun p => p.1 == r) (l.map (fun p => if p.1 == r2 then (p.1, o) else p))
      = List.find? (fun p => p.1 == r) l := by
  induction l with
  | nil => rfl
  | cons q rest ih =>
    obtain ⟨k, v⟩ := q
    rw [List.map_cons]
    by_cases hk2 : k = r2
    · subst hk2
      have hkr : (k == r) = false := by simp [Ne.symm hne]
      simp only [beq_self_eq_true, if_pos]
      rw [List.find?_cons_of_neg _ (by simpa using hkr),
        List.find?_cons_of_neg _ (by simpa using hkr)]
      exact ih
    · have hk2f : (k == r2) = false := by simp [hk2]
      rw [show (if (k == r2) = true then (k, o) else (k, v)) = (k, v) by rw [hk2f]; simp]
      by_cases hkr : k = r
      · subst hkr
        rw [List.find?_cons_of_pos _ (by simp), List.find?_cons_of_pos _ (by simp)]
      · have hkrf : (k == r) = false := by simp [hkr]
        rw [List.find?_cons_of_neg _ (by simpa using hkrf),
          List.find?_cons_of_neg _ (by simpa using hkrf)]
        exact ih

/-- `heapSetRule` at one reference does not change other rule lookups. -/
theorem heapRule_setRule_ne (h : Heap) (r2 : Ref) (o : RuleObj) (r : Ref)
    (hne : r ≠ r2) : heapRule (heapSetRule h r2 o) r = heapRule h r := by
  unfold heapRule heapSetRule
  rw [find?_update_key_ne h.ruleObjs r2 r o hne]

/-- A dereferenceable rule reference is below the allocation counter. -/
theorem heapRule_lt_nextRef (h : Heap) (hWF : ∀ p ∈ h.ruleObjs, p.1 < h.nextRef)
    (r : Ref) (hr : (heapRule h r).isSome = true) : r < h.nextRef := by
  unfold heapRule at hr
  cases hf : List.find? (fun p => p.1 == r) h.ruleObjs with
  | none => rw [hf] at hr; simp at hr
  | some q =>
    have hp : q.1 = r := by simpa using List.find?_some hf
    have hmem := List.mem_of_find?_eq_some hf
    have hlt := hWF q hmem
    exact hp ▸ hlt

/-- Allocation preserves the lookup of any reference that already
dereferences. -/
theorem heapRule_alloc_of_isSome (h : Heap) (o : RuleObj) (r : Ref)
    (hr : (heapRule h r).isSome = true) :
    heapRule (heapAllocRule h o).2 r = heapRule h r := by
  unfold heapRule heapAllocRule
  dsimp only
  unfold heapRule at hr
  cases hf : List.find? (fun p => p.1 == r) h.ruleObjs with
  | none => rw [hf] at hr; simp at hr
  | some q => rw [find?_append_some _ _ _ _ hf]

/-- The freshly allocated reference dereferences to the allocated
object. -/
theorem heapRule_alloc_self (h : Heap) (o : RuleObj)
    (hWF : ∀ p ∈ h.ruleObjs, p.1 < h.nextRef) :
    heapRule (heapAllocRule h o).2 h.nextRef = some o := by
  unfold heapRule heapAllocRule
  dsimp only
  have hnone : List.find? (fun p => p.1 == h.nextRef) h.ruleObjs = none := by
    rw [List.find?_eq_none]
    intro q hq
    have hlt := hWF q hq
    intro hcontra
    have heq : q.1 = h.nextRef := by simpa using hcontra
    exact absurd heq (Nat.ne_of_lt hlt)
  rw [find?_append_none _ _ _ hnone]
  simp [List.find?]

/-- **C9** (corrected from the claim) — the defensive part that does hold.
`getRule` hands back a freshly allocated object, so assigning to a
top-level field of the returned object (here `enabled`) does not change
what any subsequent read of the store observes. (`getRules` returns the
stored objects themselves and the copy shares its `methods` array — see
the counterexample.) -/
theorem getRule_top_level_defensive (s : RuleStore) (id : String)
    (hWF : storeWF s) (r2 : Ref) (s2 : RuleStore)
    (hget : getRule s id = (some r2, s2)) (b : Bool) (qid : String) :
    storedRuleValue (setEnabledRef s2 r2 b) qid = storedRuleValue s2 qid := by
  obtain ⟨hWF1, _hWF2, hWF3⟩ := hWF
  unfold getRule at hget
  cases hfr : findRuleRef s id with
  | none => rw [hfr] at hget; simp at hget
  | some r =>
    rw [hfr] at hget
    dsimp only at hget
    cases ho : heapRule s.heap r with
    | none => rw [ho] at hget; simp at hget
    | some o =>
      rw [ho] at hget
      dsimp only at hget
      rw [Prod.mk.injEq, Option.some.injEq] at hget
      obtain ⟨hr2, hs2⟩ := hget
      subst hr2
      subst hs2
      -- the fresh reference is `s.heap.nextRef`
      have hfst : (heapAllocRule s.heap o).1 = s.heap.nextRef := rfl
      rw [hfst]
      have hself : heapRule (heapAllocRule s.heap o).2 s.heap.nextRef = some o :=
        heapRule_alloc_self s.heap o hWF1
      unfold setEnabledRef
      dsimp only
      rw [hself]
      -- every stored reference lookup survives both the allocation and the write
      have hkeep : ∀ r0 ∈ s.rules,
          heapRule (heapSetRule (heapAllocRule s.heap o).2 s.heap.nextRef
              { o with enabled := b }) r0
            = heapRule (heapAllocRule s.heap o).2 r0 := by
        intro r0 hr0
        have hsome := hWF3 r0 hr0
        have hlt := heapRule_lt_nextRef s.heap hWF1 r0 hsome
        exact heapRule_setRule_ne _ _ _ _ (Nat.ne_of_lt hlt)
      unfold storedRuleValue findRuleRef
      dsimp only
      rw [find?_congr_pred _ _ s.rules (fun r0 hr0 => by rw [hkeep r0 hr0])]
      cases hq : List.find? (fun r0 =>
          match heapRule (heapAllocRule s.heap o).2 r0 with
          | some o2 => o2.id == qid
          | none => false) s.rules with
      | none => rfl
      | some rq =>
        have hqmem := List.mem_of_find?_eq_some hq
        unfold ruleValue
        dsimp only
        rw [hkeep rq hqmem]
        rfl

/-- Witness for `getRule_top_level_defensive`: flipping `enabled` on the
copy returned for `"r1"` leaves the stored rule's observable value
unchanged. -/
theorem getRule_top_level_defensive_witness :
    storeWF sampleStore ∧
    storedRuleValue (setEnabledRef (getRule sampleStore "r1").2 2 false) "r1"
      = storedRuleValue (getRule sampleStore "r1").2 "r1" := by
  have hWF : storeWF sampleStore := by
    refine ⟨?_, ?_, ?_⟩ <;> decide
  refine ⟨hWF, ?_⟩
  exact getRule_top_level_defensive sampleStore "r1" hWF 2 (getRule sampleStore "r1").2
    (by decide) false "r1"

/-- **C9 counterexample.** `getRules` returns the stored objects: setting
`enabled := false` through the reference it hands out changes what a
subsequent read observes; and the `getRule` copy shares its `methods`
array, so pushing a method through the copy also changes subsequent
reads. -/
theorem ruleStore_aliasing_counterexample :
    ((storedRuleValue sampleStore "r1").map RuleValue.enabled = some true) ∧
    ((storedRuleValue
        (setEnabledRef sampleStore ((getRules sampleStore).getD 0 99) false) "r1").map
        RuleValue.enabled = some false) ∧
    ((getRule sampleStore "r1").1 = some 2) ∧
    ((storedRuleValue (pushMethodRef (getRule sampleStore "r1").2 2 HttpMethod.POST)
        "r1").map RuleValue.methods = some [HttpMethod.star, HttpMethod.POST]) := by
  refine ⟨?_, ?_, ?_, ?_⟩ <;> decide

end ChaosMonkey
